import Mathlib

/-!
Verification development for the autodebug MCP process supervisor (Go).

Shallow embedding conventions:
* Go strings are modelled as `List Char`;
* `time.Time` values are integer nanoseconds (`Int`), the Go zero time is `0`;
* Go `int` is `Int`;
* fallible operations return `Option` / `Except`;
* goroutine bodies whose claims are about *which* operations they perform
  (OS wait, latch observation, external kill commands) are modelled as
  explicit action lists transcribed statement by statement from the source.

Sources embedded: `tools.go` (tool handlers, semaphore, HTTP request
building and result construction), the process-manager file
(`ProcessInfo`, `StartProcess`, `monitorProcessExit`, `KillProcess`,
`GetRequestLog`, `FindProcessByURL`, `normalizeHost`,
`extractPortFromURL`, `killProcessByPort`,
`waitForPortReadyWithExitCheck`).
-/

/-! ## Basic list utilities (models of `strings` / `net/url` splitting) -/

/-- Split a character list at the first occurrence of `c`.
Returns the part before and, when found, the part after (model of the
first-separator splits done by Go `net/url`). -/
def splitAtFirst (c : Char) : List Char → List Char × Option (List Char)
  | [] => ([], none)
  | x :: xs =>
    if x = c then ([], some xs)
    else
      let r := splitAtFirst c xs
      (x :: r.1, r.2)

/-- Index of the last occurrence of `c` (model of `strings.LastIndexByte`). -/
def lastIdxOf (c : Char) : List Char → Option Nat
  | [] => none
  | x :: xs =>
    match lastIdxOf c xs with
    | some k => some (k + 1)
    | none => if x = c then some 0 else none

/-- Digits of a decimal numeral to a `Nat`. -/
def digitsVal (l : List Char) : Nat :=
  l.foldl (fun acc c => acc * 10 + (c.toNat - 48)) 0

/-- Model of `strconv.Atoi` with the error ignored (the source discards the
error and keeps the zero value): non-empty all-digit input parses, anything
else yields `0`. -/
def goAtoi (l : List Char) : Int :=
  if l ≠ [] ∧ l.all Char.isDigit then Int.ofNat (digitsVal l) else 0

/-- Go `len` on a string counts UTF-8 bytes, not runes. -/
def goLen (l : List Char) : Nat :=
  (l.map Char.utf8Size).sum

/-! ## URL model (the fragment of `net/url` the source exercises) -/

/-- Components of a parsed URL as the source consumes them:
`scheme`, `host` (including any `:port`), `path`, `rawQuery`, `fragment`. -/
structure GoURL where
  scheme : List Char
  host : List Char
  path : List Char
  rawQuery : List Char
  fragment : List Char
deriving DecidableEq, Repr

/-- Find the literal `://` separator: the part before (the scheme) and the
part after.  A scheme-less or opaque URL yields `none` (the source only
feeds absolute `http(s)` URLs through the paths we verify). -/
def splitSchemeSep : List Char → Option (List Char × List Char)
  | [] => none
  | x :: xs =>
    if x = ':' then
      match xs with
      | '/' :: '/' :: rest => some ([], rest)
      | _ => none
    else
      match splitSchemeSep xs with
      | some r => some (x :: r.1, r.2)
      | none => none

/-- Model of `url.Parse` for absolute URLs, in the order Go applies the
splits: fragment first (at the first `#`), then scheme, then raw query
(at the first `?`), then authority up to the first `/`. -/
def parseAbsURL (s : List Char) : Option GoURL :=
  let hashSplit := splitAtFirst '#' s
  match splitSchemeSep hashSplit.1 with
  | none => none
  | some schemeRest =>
    let querySplit := splitAtFirst '?' schemeRest.2
    let host := querySplit.1.takeWhile (fun c => c != '/')
    let path := querySplit.1.dropWhile (fun c => c != '/')
    some { scheme := schemeRest.1, host := host, path := path,
           rawQuery := (querySplit.2.getD []),
           fragment := (hashSplit.2.getD []) }

/-- Model of `url.URL.String()` for the URLs the source produces. -/
def serializeURL (u : GoURL) : List Char :=
  u.scheme ++ ("://".toList) ++ u.host ++ u.path
  ++ (if u.rawQuery = [] then [] else '?' :: u.rawQuery)
  ++ (if u.fragment = [] then [] else '#' :: u.fragment)

/-- The well-formedness assumptions under which `serializeURL` and
`parseAbsURL` are mutually inverse (ordinary absolute http(s) URLs). -/
def wellFormedURLParts (u : GoURL) : Prop :=
  (u.scheme = ("http".toList) ∨ u.scheme = ("https".toList))
  ∧ '/' ∉ u.host ∧ '?' ∉ u.host ∧ '#' ∉ u.host
  ∧ (u.path = [] ∨ u.path.head? = some '/')
  ∧ '?' ∉ u.path ∧ '#' ∉ u.path
  ∧ '#' ∉ u.rawQuery

instance (u : GoURL) : Decidable (wellFormedURLParts u) := by
  unfold wellFormedURLParts; infer_instance

/-- Model of `net/url`'s `validOptionalPort`. -/
def validOptionalPort : List Char → Bool
  | [] => true
  | ':' :: rest => rest.all (fun c => c.isDigit)
  | _ => false

/-- Strip the square brackets of an IPv6 literal (part of `splitHostPort`
in `net/url`). -/
def stripBrackets (h : List Char) : List Char :=
  if h.head? = some '[' ∧ h.getLast? = some ']' then (h.drop 1).dropLast else h

/-- Model of `net/url`'s internal `splitHostPort` (used by `Hostname` and
`Port`): strip a trailing `:digits` when present, then brackets. -/
def splitHostPortURL (hostport : List Char) : List Char × List Char :=
  match lastIdxOf ':' hostport with
  | none => (stripBrackets hostport, [])
  | some i =>
    if validOptionalPort (hostport.drop i) then
      (stripBrackets (hostport.take i), hostport.drop (i + 1))
    else
      (stripBrackets hostport, [])

/-- `url.URL.Hostname()`. -/
def uHostname (host : List Char) : List Char := (splitHostPortURL host).1

/-- `url.URL.Port()`. -/
def uPort (host : List Char) : List Char := (splitHostPortURL host).2

/-- `normalizeHost` from the process manager: empty stays empty, otherwise
lower-case and collapse the localhost aliases. -/
def normalizeHost (host : List Char) : List Char :=
  if host = [] then []
  else
    let hl := host.map Char.toLower
    if hl = ("localhost".toList) ∨ hl = ("127.0.0.1".toList)
        ∨ hl = ("::1".toList) ∨ hl = ("0.0.0.0".toList) then
      "localhost".toList
    else hl

/-- Model of `net.SplitHostPort` for the host shapes `extractPortFromURL`
feeds it (guarded by the host containing a colon). -/
def netSplitHostPort (hostport : List Char) : Option (List Char × List Char) :=
  match lastIdxOf ':' hostport with
  | none => none
  | some i =>
    let hostPart := hostport.take i
    let portPart := hostport.drop (i + 1)
    if hostPart.head? = some '[' then
      if hostPart.getLast? = some ']' then some ((hostPart.drop 1).dropLast, portPart)
      else none
    else if ':' ∈ hostPart then none
    else some (hostPart, portPart)

/-- `extractPortFromURL` from the process manager: parse the URL; if the
host carries an explicit port, parse it with `net.SplitHostPort` +
`strconv.Atoi`; otherwise the scheme defaults (http→80, https→443);
any failure is an error (the caller then records port `0`). -/
def extractPortFromURL (healthCheckURL : List Char) : Option Int :=
  match parseAbsURL healthCheckURL with
  | none => none
  | some u =>
    if ':' ∈ u.host then
      match netSplitHostPort u.host with
      | none => none
      | some hp =>
        if hp.2 ≠ [] ∧ hp.2.all Char.isDigit then some (goAtoi hp.2) else none
    else
      if u.scheme = ("http".toList) then some 80
      else if u.scheme = ("https".toList) then some 443
      else none

/-! ## Log ring model (`ProcessInfo` ring buffer and `GetRequestLog`) -/

/-- The ring capacity the source fixes in `StartProcess`
(`maxLogLines := 1000`). -/
def sourceMaxLogLines : Nat := 1000

/-- The per-child ring state: `logLines`, `logTimes` (nanoseconds, `0` is
the Go zero time meaning the slot was never written), the write index and
the capacity. -/
structure ProcessLogRing where
  logLines : List (List Char)
  logTimes : List Int
  logIndex : Int
  maxLogLines : Nat
deriving DecidableEq, Repr

/-- The backward scan index of `GetRequestLog`:
`(logIndex - 1 - i + maxLogLines) % maxLogLines` in Go `int` arithmetic. -/
def ringIdx (logIndex : Int) (maxL : Nat) (i : Nat) : Nat :=
  ((logIndex - 1 - (i : Int) + (maxL : Int)) % (maxL : Int)).toNat

/-- The loop of `GetRequestLog`, one constructor step per iteration
(fuel counts the remaining iterations; the loop runs `maxLogLines` times
unless it breaks on a stale entry).  Skips zero timestamps, prepends a
line when `startTime − 1s < t < endTime`, and stops after an entry with
`t < startTime − 2s`. -/
def getRequestLogLoop (r : ProcessLogRing) (startTime endTime : Int) :
    Nat → List (List Char) → List (List Char)
  | 0, logs => logs
  | n + 1, logs =>
    let i := r.maxLogLines - (n + 1)
    let idx := ringIdx r.logIndex r.maxLogLines i
    let t := r.logTimes.getD idx 0
    if t = 0 then getRequestLogLoop r startTime endTime n logs
    else
      let logs1 :=
        if startTime - 1000000000 < t ∧ t < endTime then
          r.logLines.getD idx [] :: logs
        else logs
      if t < startTime - 2000000000 then logs1
      else getRequestLogLoop r startTime endTime n logs1

/-- The list of lines `GetRequestLog` collects for a query stamped at
`startTime`, evaluated at wall-clock `now`
(`endTime := now + 500ms` as in the source). -/
def GetRequestLogLines (r : ProcessLogRing) (startTime now : Int) : List (List Char) :=
  getRequestLogLoop r startTime (now + 500000000) r.maxLogLines []

/-- `GetRequestLog`: the collected lines joined with newlines
(`strings.Join(logs, "\n")`). -/
def GetRequestLog (r : ProcessLogRing) (startTime now : Int) : List Char :=
  List.intercalate ("\n".toList) (GetRequestLogLines r startTime now)

/-- The ring entry visited at scan step `i`. -/
def entryAt (r : ProcessLogRing) (i : Nat) : List Char × Int :=
  (r.logLines.getD (ringIdx r.logIndex r.maxLogLines i) [],
   r.logTimes.getD (ringIdx r.logIndex r.maxLogLines i) 0)

/-- The ring contents in scan order (newest first): the sequence of
entries the backward scan visits. -/
def scanOrderList (r : ProcessLogRing) : List (List Char × Int) :=
  (List.range r.maxLogLines).map (entryAt r)

/-- `GetRequestLog`'s scan expressed on an explicit newest-first entry
list (used to relate the index loop to a structural recursion). -/
def scanEntries (startTime endTime : Int) : List (List Char × Int) → List (List Char)
  | [] => []
  | (line, t) :: rest =>
    if t = 0 then scanEntries startTime endTime rest
    else if startTime - 1000000000 < t ∧ t < endTime then
      scanEntries startTime endTime rest ++ [line]
    else if t < startTime - 2000000000 then []
    else scanEntries startTime endTime rest

/-- Accumulator form of `scanEntries`, mirroring the loop's prepending
accumulator exactly (used to relate the index loop to `scanEntries`). -/
def scanFold (startTime endTime : Int) :
    List (List Char × Int) → List (List Char) → List (List Char)
  | [], acc => acc
  | (line, t) :: rest, acc =>
    if t = 0 then scanFold startTime endTime rest acc
    else
      let acc1 :=
        if startTime - 1000000000 < t ∧ t < endTime then line :: acc else acc
      if t < startTime - 2000000000 then acc1
      else scanFold startTime endTime rest acc1

/-- The inclusion window of the source scan: initialized slot and
`startTime − 1s < t < endTime` (both bounds as the code compares them,
`After` and `Before` being strict). -/
def windowCondB (startTime endTime : Int) (x : List Char × Int) : Bool :=
  decide (x.2 ≠ 0 ∧ startTime - 1000000000 < x.2 ∧ x.2 < endTime)

/-- Invariant L2 of the ring along the scan order (newest first): once a
zero (never-written) slot or an older timestamp is reached, every later
scanned slot is older still or never written. -/
def scanNewerOlder (a b : List Char × Int) : Prop :=
  b.2 = 0 ∨ (a.2 ≠ 0 ∧ b.2 ≤ a.2)

instance (a b : List Char × Int) : Decidable (scanNewerOlder a b) := by
  unfold scanNewerOlder; infer_instance

/-! ## Registry lookup by URL (`FindProcessByURL`) -/

/-- The registry view of a child the URL matcher consumes. -/
structure ProcEntry where
  Name : List Char
  HealthCheckURL : List Char
  HealthCheckPort : Int
deriving DecidableEq, Repr

/-- The health-side effective port exactly as the Go loop computes it:
the explicit port of the health URL, else `80`/`443` by scheme, else the
empty string (which can never equal a request port). -/
def healthPortResolvedCode (hu : GoURL) : List Char :=
  let p := uPort hu.host
  if p = [] then
    if hu.scheme = ("http".toList) then "80".toList
    else if hu.scheme = ("https".toList) then "443".toList
    else []
  else p

/-- `FindProcessByURL` from the process manager: parse the request URL,
normalize its host, resolve the effective request port (explicit, else
scheme default, else give up), then return the first registered child
that matches by (normalized health host, health port) or by
`HealthCheckPort` (the registry is modelled as a list; `sync.Map.Range`
iterates it in that order). -/
def FindProcessByURL (procs : List ProcEntry) (requestURL : List Char) : Option ProcEntry :=
  match parseAbsURL requestURL with
  | none => none
  | some u =>
    let nReq := normalizeHost (uHostname u.host)
    let requestPort0 := uPort u.host
    let requestPort1 :=
      if requestPort0 = [] then
        if u.scheme = ("http".toList) then some ("80".toList)
        else if u.scheme = ("https".toList) then some ("443".toList)
        else none
      else some requestPort0
    match requestPort1 with
    | none => none
    | some rp =>
      procs.find? (fun e =>
        (match (if e.HealthCheckURL ≠ [] then parseAbsURL e.HealthCheckURL else none) with
         | some hu =>
            decide (normalizeHost (uHostname hu.host) = nReq
              ∧ healthPortResolvedCode hu = rp)
         | none => false)
        || (decide (0 < e.HealthCheckPort) && decide (goAtoi rp = e.HealthCheckPort)))

/-- The matching predicate in the words of the specification: a child
matches when its (normalized health host, health port) equals the
request's pair, or when the request port equals its `health_port`. -/
def specMatchesChild (nReqHost reqPort : List Char) (e : ProcEntry) : Bool :=
  (match parseAbsURL e.HealthCheckURL with
   | some hu =>
      decide (normalizeHost (uHostname hu.host) = nReqHost
        ∧ healthPortResolvedCode hu = reqPort)
   | none => false)
  || (decide (0 < e.HealthCheckPort) && decide (goAtoi reqPort = e.HealthCheckPort))

/-! ## request_with_logs URL rewrite -/

/-- Whether the caller URL is treated as absolute by the handler
(`strings.HasPrefix(args.URL, "http://") || ... "https://"`). -/
def hasHTTPPrefix (s : List Char) : Bool :=
  ("http://".toList).isPrefixOf s || ("https://".toList).isPrefixOf s

/-- The URL construction of the `request_with_logs` handler when a child
is associated: parse the child's health URL; if the caller URL is
absolute, re-parse it and overwrite scheme and host before serializing;
otherwise treat it as a path, prepend a slash when missing and append it
to the health scheme://host.  `none` models the handler's parse-error
tool results. -/
def buildRequestURL (healthCheckURL argsURL : List Char) : Option (List Char) :=
  match parseAbsURL healthCheckURL with
  | none => none
  | some h =>
    if hasHTTPPrefix argsURL then
      match parseAbsURL argsURL with
      | none => none
      | some u => some (serializeURL { u with scheme := h.scheme, host := h.host })
    else
      some (h.scheme ++ ("://".toList) ++ h.host
        ++ (if argsURL.head? = some '/' then argsURL else '/' :: argsURL))

/-! ## request_with_logs result construction -/

/-- Outcome of `httpClient.Do`: a status and body, or a transport error
string. -/
inductive HTTPOutcome where
  | ok (status : Int) (body : List Char)
  | failed (errMsg : List Char)
deriving DecidableEq, Repr

/-- Byte-bounded prefix of a string (model of the Go byte slice `s[:n]`,
kept on rune boundaries). -/
def takeBytes : List Char → Nat → List Char
  | [], _ => []
  | c :: cs, n =>
    if c.utf8Size ≤ n then c :: takeBytes cs (n - c.utf8Size) else []

/-- `truncateString` from tools.go. -/
def truncateString (s : List Char) (maxLen : Nat) : List Char :=
  if goLen s ≤ maxLen then s else takeBytes s maxLen ++ ("...".toList)

/-- The structured payload of a `request_with_logs` result
(`structuredResp` in the handler); absent keys are `none`. -/
structure RequestStructured where
  status_code : Int
  duration_ms : Int
  log_file : Option (List Char) := none
  response : Option (List Char) := none
  response_summary : Option (List Char) := none
  logs : Option (List Char) := none
  logs_summary : Option (List Char) := none
deriving DecidableEq, Repr

/-- The inline-size threshold of the handler (`maxInlineLen = 4000`). -/
def maxInlineLen : Nat := 4000

/-- Result construction of the `request_with_logs` handler after the HTTP
call (tools.go, from the `httpClient.Do` return to the final
`CallToolResult`): derive body and status from the outcome (transport
failure gives status `0` and the error text as body), substitute the
placeholder log strings, and emit either the inline payload or the
summary payload depending on the 4000-byte threshold and the log file.
`proc` is `some rawLogs` when a child is associated (with the window
query's result), `logFilePath` is `writeResponseToFile`'s return (empty
on failure).  The first component is the tool result's `IsError` flag
(never set on this path). -/
def requestWithLogsBuild (outcome : HTTPOutcome) (durationMs : Int)
    (proc : Option (List Char)) (logFilePath : List Char) :
    Bool × RequestStructured :=
  let responseBody :=
    match outcome with
    | .failed e => ("请求失败: ".toList) ++ e
    | .ok _ b => b
  let statusCode :=
    match outcome with
    | .failed _ => 0
    | .ok st _ => st
  let requestLogs :=
    match proc with
    | some raw => if raw = [] then "(请求期间无进程日志输出)".toList else raw
    | none => "(未关联进程)".toList
  let totalContentLen := goLen responseBody + goLen requestLogs
  if totalContentLen > maxInlineLen ∧ logFilePath ≠ [] then
    (false,
     { status_code := statusCode, duration_ms := durationMs,
       log_file := some logFilePath,
       response_summary := some (truncateString responseBody 500),
       logs_summary :=
         if proc.isSome ∧ requestLogs ≠ [] then
           some (truncateString requestLogs 500)
         else none })
  else
    (false,
     { status_code := statusCode, duration_ms := durationMs,
       log_file := if logFilePath ≠ [] then some logFilePath else none,
       response := some responseBody,
       logs := if proc.isSome then some requestLogs else none })

/-! ## Readiness wait (`waitForPortReadyWithExitCheck`) -/

/-- Two's-complement wrap of an unbounded integer into the int64 range
(the constants are `2^63` and `2^64`). -/
def wrapInt64 (x : Int) : Int :=
  (x + 9223372036854775808) % 18446744073709551616 - 9223372036854775808

/-- Go `time.Duration(t) * time.Second`: `time.Duration` is an int64
count of nanoseconds, so the product `t * 10^9` is computed in wrapping
int64 arithmetic. -/
def goDurationSeconds (t : Int) : Int :=
  wrapInt64 (t * 1000000000)

/-- One `select` round of `waitForPortReadyWithExitCheck`, on the 500 ms
ticker grid, with times in nanoseconds: `k` ticks have elapsed (wall
clock `k * 5*10^8` ns).  The context's deadline sits at `timeoutNs` (for
a non-positive timeout it is already expired on entry, so `Done` fires
before the first tick).  `exitAt` delivers the exit notification at a
tick boundary; when several channels become ready at the same tick we
resolve the race exit-first (Go picks randomly; no claim depends on the
tie order).  Returns the outcome and the elapsed nanoseconds. -/
def waitForPortReadyGo (timeoutNs : Int) (portOpen : Nat → Bool)
    (exitAt : Option Nat) : Nat → Nat → Except (List Char) Unit × Int
  | 0, k => (Except.error ("等待端口就绪超时".toList), 500000000 * (k : Int))
  | fuel + 1, k =>
    if timeoutNs ≤ 500000000 * (k : Int) then
      (Except.error ("等待端口就绪超时".toList), 500000000 * (k : Int))
    else if timeoutNs ≤ 500000000 * ((k : Int) + 1) then
      (Except.error ("等待端口就绪超时".toList), timeoutNs)
    else if exitAt = some (k + 1) then
      (Except.error ("进程已退出".toList), 500000000 * ((k : Int) + 1))
    else if portOpen (k + 1) then
      (Except.ok (), 500000000 * ((k : Int) + 1))
    else waitForPortReadyGo timeoutNs portOpen exitAt fuel (k + 1)

/-- `waitForPortReadyWithExitCheck` as a function of the timeout and of
the port/exit environment. -/
def waitForPortReadyWithExitCheckModel (timeoutNs : Int) (portOpen : Nat → Bool)
    (exitAt : Option Nat) : Except (List Char) Unit × Int :=
  waitForPortReadyGo timeoutNs portOpen exitAt (timeoutNs.toNat / 500000000 + 1) 0

/-! ## start_process handler -/

/-- The spec-side notion of whitespace ("`command` must not contain
whitespace").  Modelled from the spec: the source only tests for the
single space character. -/
def specIsWhitespace (c : Char) : Bool :=
  c = ' ' || c = '\t' || c = '\n' || c = '\r'

/-- Modelled from the spec: a command containing whitespace. -/
def specContainsWhitespace (l : List Char) : Bool :=
  l.any specIsWhitespace

/-- ASCII apostrophe, spelled by code point. -/
def apos : Char := Char.ofNat 39

/-- The remediation message the `start_process` handler returns when the
command contains a space (the `fmt.Sprintf` literal of tools.go, with
the caller's command interpolated). -/
def startSpaceErrMessage (cmd : List Char) : List Char :=
  ("命令参数错误：command ".toList) ++ [apos] ++ cmd ++ [apos]
  ++ (" 包含空格\n\n正确用法：\n- command: 可执行文件名（如 ".toList)
  ++ [apos] ++ ("go".toList) ++ [apos] ++ (", ".toList)
  ++ [apos] ++ ("python".toList) ++ [apos] ++ (", ".toList)
  ++ [apos] ++ ("npm".toList) ++ [apos]
  ++ ("）\n- args: 参数列表（如 [".toList)
  ++ [apos] ++ ("run".toList) ++ [apos] ++ (", ".toList)
  ++ [apos] ++ (".".toList) ++ [apos]
  ++ ("]）\n\n示例：启动 Go 项目\n  command: \"go\"\n  args: [\"run\", \".\"]\n\n示例：启动 Python 项目\n  command: \"python\"\n  args: [\"-m\", \"http.server\", \"8080\"]".toList)

/-- Observable side effects of a `start_process` call, in program order. -/
inductive StartEffect where
  | killOldProcess
  | portCheckAndReap
  | spawnAttempt
  | registerChild
  | killAfterFailedHealth
deriving DecidableEq, Repr

/-- Outcome of `cmd.Start()` (an environment oracle of the handler). -/
inductive SpawnOutcome where
  | started (pid : Int)
  | execNotFound
  | otherError
deriving DecidableEq, Repr

/-- Result of a modelled `start_process` call. -/
structure StartHandlerResult where
  registry : List (List Char)
  isError : Bool
  message : List Char
  effects : List StartEffect
deriving DecidableEq, Repr

/-- Messages of the non-reject error paths (literals abbreviated to their
leading text; no claim depends on their tails). -/
def startSpawnFailMessage : List Char := "启动进程失败".toList

/-- Header of the health-check failure result text (abbreviated). -/
def startHealthFailMessage : List Char := "进程启动失败".toList

/-- Header of the success result text (abbreviated). -/
def startSuccessMessage : List Char := "进程已成功启动".toList

/-- The `start_process` handler pipeline of tools.go, over a registry of
child names: the space check (`strings.Contains(args.Command, " ")`)
rejects first with no side effect; otherwise a prior homonym is killed
and unregistered, the health port is reaped if squatted, the child is
spawned (oracle `spawn`), registered, and the readiness wait runs with
`time.Duration(timeout_seconds) * time.Second` computed in wrapping
int64 arithmetic, a zero duration replaced by the 60 s default; on
readiness failure the child is killed and unregistered again and the
handler reports an error. -/
def startProcessHandler (registry : List (List Char)) (name command : List Char)
    (healthCheckURL : List Char) (timeoutSeconds : Int) (spawn : SpawnOutcome)
    (portOpen : Nat → Bool) (exitAt : Option Nat) (httpReady : Bool) :
    StartHandlerResult :=
  if command.contains ' ' then
    { registry := registry, isError := true,
      message := startSpaceErrMessage command, effects := [] }
  else
    let cleanupEffects :=
      if registry.contains name then [StartEffect.killOldProcess] else []
    let registry1 := registry.erase name
    let effects1 := cleanupEffects ++ [StartEffect.portCheckAndReap]
    match spawn with
    | .execNotFound =>
      { registry := registry1, isError := true,
        message := startSpawnFailMessage,
        effects := effects1 ++ [StartEffect.spawnAttempt] }
    | .otherError =>
      { registry := registry1, isError := true,
        message := startSpawnFailMessage,
        effects := effects1 ++ [StartEffect.spawnAttempt] }
    | .started _ =>
      let registry2 := registry1 ++ [name]
      let effects2 := effects1 ++ [StartEffect.spawnAttempt, StartEffect.registerChild]
      let timeout := goDurationSeconds timeoutSeconds
      let effTimeout := if timeout = 0 then 60000000000 else timeout
      let port := (extractPortFromURL healthCheckURL).getD 0
      let healthOutcome :=
        if 0 < port then
          (waitForPortReadyWithExitCheckModel effTimeout portOpen exitAt).1
        else if httpReady then Except.ok ()
        else Except.error ("等待 HTTP 服务就绪超时".toList)
      match healthOutcome with
      | .ok _ =>
        { registry := registry2, isError := false,
          message := startSuccessMessage, effects := effects2 }
      | .error _ =>
        { registry := registry2.erase name, isError := true,
          message := startHealthFailMessage,
          effects := effects2 ++ [StartEffect.killAfterFailedHealth] }

/-! ## Kill strategy (`KillProcess` and `killProcessByPort`) -/

/-- Model of `strings.Contains`: `sub` occurs contiguously in the
second argument. -/
def containsSub (sub : List Char) : List Char → Bool
  | [] => sub.isEmpty
  | x :: xs => sub.isPrefixOf (x :: xs) || containsSub sub xs

/-- The runtime platform test of the source:
`strings.Contains(strings.ToLower(os.Getenv("OS")), "windows")`
(ASCII lowering suffices for the env values involved). -/
def isWindowsRuntime (osEnv : List Char) : Bool :=
  containsSub ("windows".toList) (osEnv.map Char.toLower)

/-- The external commands and signals the kill paths can issue. -/
inductive KillCmd where
  | taskkillTree (pid : Int)
  | sigkillProcess (pid : Int)
  | netstatANO
  | netstatTULNP
  | taskkillPid (pid : Int)
  | killDash9 (pid : Int)
deriving DecidableEq, Repr

/-- geometry of `killProcessByPort`: enumerate listeners with the
OS-specific netstat variant, then signal each discovered PID with the
OS-specific kill command; the variant is chosen from the runtime `OS`
environment variable. -/
def killProcessByPortCmds (osEnv : List Char) (pids : List Int) : List KillCmd :=
  (if isWindowsRuntime osEnv then [KillCmd.netstatANO] else [KillCmd.netstatTULNP])
  ++ pids.map (fun pid =>
      if isWindowsRuntime osEnv then KillCmd.taskkillPid pid else KillCmd.killDash9 pid)

/-- The external commands/signals `KillProcess` issues for a child:
`taskkill /F /T /PID` when the runtime `OS` variable contains
`windows` (falling back to the port reaper when taskkill fails and the
health port is known), `SIGKILL` otherwise. -/
def KillProcessCmds (osEnv : List Char) (pid : Int) (taskkillFails : Bool)
    (healthCheckPort : Int) (portPids : List Int) : List KillCmd :=
  if isWindowsRuntime osEnv then
    [KillCmd.taskkillTree pid]
    ++ (if taskkillFails ∧ 0 < healthCheckPort then killProcessByPortCmds osEnv portPids
        else [])
  else [KillCmd.sigkillProcess pid]

/-! ## Waiter discipline (exit watcher vs. every other path) -/

/-- The operations on a child that the waiter-discipline claim tracks,
one constructor per relevant statement of the source. -/
inductive ChildAction where
  | osWait
  | releaseWaitDone
  | awaitWaitDone
  | cancelContext
  | runTaskkill
  | sendSigkill
  | reapByPort
  | closeStdoutPipe
  | closeStderrPipe
  | awaitLogReaders
  | closeLogChan
  | sendExitSignal
  | unregister
  | readPipeLoop
  | offerLogChan
  | recvLogChan
  | appendLogBuffer
  | writeRing
deriving DecidableEq, Repr

/-- `collectStdout`: read the pipe until EOF and offer lines to the
channel (never touches the OS wait). -/
def collectStdoutActions : List ChildAction :=
  [ChildAction.readPipeLoop, ChildAction.offerLogChan]

/-- `collectStderr`: same shape as `collectStdout`. -/
def collectStderrActions : List ChildAction :=
  [ChildAction.readPipeLoop, ChildAction.offerLogChan]

/-- `processLogs`: drain the channel into the buffer and the ring. -/
def processLogsActions : List ChildAction :=
  [ChildAction.recvLogChan, ChildAction.appendLogBuffer, ChildAction.writeRing]

/-- `monitorProcessExit`, statement by statement: the single `Cmd.Wait`,
the `waitOnce` release of `waitDone`, pipe closure, reader join, channel
closure, exit-signal delivery. -/
def monitorProcessExitActions : List ChildAction :=
  [ChildAction.osWait, ChildAction.releaseWaitDone,
   ChildAction.closeStdoutPipe, ChildAction.closeStderrPipe,
   ChildAction.awaitLogReaders, ChildAction.closeLogChan,
   ChildAction.sendExitSignal]

/-- `KillProcess`, statement by statement, parameterized over the runtime
branch conditions: cancel the context, signal the process tree
(taskkill, with the port-reaper fallback, or SIGKILL), then *observe*
`waitDone` (never calling the OS wait), close pipes, join the readers,
close the channel, unregister. -/
def killProcessActions (windowsEnv taskkillFailed portKnown : Bool) : List ChildAction :=
  [ChildAction.cancelContext]
  ++ (if windowsEnv then
        [ChildAction.runTaskkill]
        ++ (if taskkillFailed && portKnown then [ChildAction.reapByPort] else [])
      else [ChildAction.sendSigkill])
  ++ [ChildAction.awaitWaitDone, ChildAction.closeStdoutPipe,
      ChildAction.closeStderrPipe, ChildAction.awaitLogReaders,
      ChildAction.closeLogChan, ChildAction.unregister]

/-- The homonym cleanup at the top of `StartProcess`: wait (bounded) on
the old child's `waitDone` latch, then unregister it. -/
def startProcessHomonymCleanupActions : List ChildAction :=
  [ChildAction.awaitWaitDone, ChildAction.unregister]

/-- The four background tasks `StartProcess` launches for every spawned
child. -/
def startProcessSpawnedTasks : List (List ChildAction) :=
  [collectStdoutActions, collectStderrActions, processLogsActions,
   monitorProcessExitActions]

/-! ## Tool serialization (`toolSemaphore`) -/

/-- The single token `init` posts into the capacity-1 `toolSemaphore`
channel. -/
def semInitTokens : Nat := 1

/-- Global state of the semaphore system: one program counter per
in-flight tool call (`0` before acquire, `1` inside the handler body,
`2` after release) plus the tokens currently buffered in the channel. -/
structure SemState where
  pcs : List Nat
  tokens : Nat
deriving DecidableEq, Repr

/-- Initial state for `n` concurrent tool calls. -/
def semInit (n : Nat) : SemState :=
  { pcs := List.replicate n 0, tokens := semInitTokens }

/-- Interleaving semantics: `acquire` is the channel receive at handler
entry (needs a buffered token), `release` is the deferred send at
handler exit. -/
inductive SemStep : SemState → SemState → Prop where
  | acquire (s : SemState) (i : Nat) (hpc : s.pcs.get? i = some 0)
      (htok : 1 ≤ s.tokens) :
      SemStep s { pcs := s.pcs.set i 1, tokens := s.tokens - 1 }
  | release (s : SemState) (i : Nat) (hpc : s.pcs.get? i = some 1) :
      SemStep s { pcs := s.pcs.set i 2, tokens := s.tokens + 1 }

/-- States reachable from the initial state by any interleaving. -/
def SemReachable (n : Nat) (s : SemState) : Prop :=
  Relation.ReflTransGen SemStep (semInit n) s

/-- Number of tool calls currently inside a handler body. -/
def inBodyCount (s : SemState) : Nat :=
  s.pcs.countP (fun p => p == 1)

/-- Handler skeleton actions: semaphore acquire, the body, the deferred
release. -/
inductive ToolAction where
  | acquireSem
  | handlerBody
  | releaseSem
deriving DecidableEq, Repr

/-- Every tool registered in `RegisterTools`, with its handler skeleton:
each handler's first statement is `acquireToolSemaphore()` and its
deferred last action is `releaseToolSemaphore()`. -/
def registeredToolHandlers : List (List Char × List ToolAction) :=
  [("start_process".toList, [ToolAction.acquireSem, ToolAction.handlerBody, ToolAction.releaseSem]),
   ("request_with_logs".toList, [ToolAction.acquireSem, ToolAction.handlerBody, ToolAction.releaseSem]),
   ("kill_process".toList, [ToolAction.acquireSem, ToolAction.handlerBody, ToolAction.releaseSem]),
   ("save_memory".toList, [ToolAction.acquireSem, ToolAction.handlerBody, ToolAction.releaseSem]),
   ("read_memory".toList, [ToolAction.acquireSem, ToolAction.handlerBody, ToolAction.releaseSem]),
   ("save_knowledge".toList, [ToolAction.acquireSem, ToolAction.handlerBody, ToolAction.releaseSem]),
   ("search_knowledge".toList, [ToolAction.acquireSem, ToolAction.handlerBody, ToolAction.releaseSem])]

/-! ## Helper lemmas: splitting and prefixes -/

theorem splitAtFirst_not_mem {c : Char} {l : List Char} (h : c ∉ l) :
    splitAtFirst c l = (l, none) := by
  induction l with
  | nil => rfl
  | cons x xs ih =>
    have hx : ¬ x = c := by
      rintro rfl; exact h (List.mem_cons_self x xs)
    have hxs : c ∉ xs := fun hm => h (List.mem_cons_of_mem _ hm)
    simp [splitAtFirst, hx, ih hxs]

theorem splitAtFirst_append {c : Char} {l₁ : List Char} (l₂ : List Char)
    (h : c ∉ l₁) : splitAtFirst c (l₁ ++ c :: l₂) = (l₁, some l₂) := by
  induction l₁ with
  | nil => simp [splitAtFirst]
  | cons x xs ih =>
    have hx : ¬ x = c := by
      rintro rfl; exact h (List.mem_cons_self x xs)
    have hxs : c ∉ xs := fun hm => h (List.mem_cons_of_mem _ hm)
    simp [splitAtFirst, hx, ih hxs]

theorem splitSchemeSep_append {sch : List Char} (rest : List Char)
    (h : ':' ∉ sch) :
    splitSchemeSep (sch ++ ':' :: '/' :: '/' :: rest) = some (sch, rest) := by
  induction sch with
  | nil => simp [splitSchemeSep]
  | cons x xs ih =>
    have hx : ¬ x = ':' := by
      rintro rfl; exact h (List.mem_cons_self _ _)
    have hxs : ':' ∉ xs := fun hm => h (List.mem_cons_of_mem _ hm)
    simp [splitSchemeSep, hx, ih hxs]

theorem takeWhile_append_of_all {p : Char → Bool} {l₁ : List Char}
    (l₂ : List Char) (h : ∀ x ∈ l₁, p x = true) :
    (l₁ ++ l₂).takeWhile p = l₁ ++ l₂.takeWhile p := by
  induction l₁ with
  | nil => simp
  | cons x xs ih =>
    have hx := h x (List.mem_cons_self x xs)
    have hxs : ∀ y ∈ xs, p y = true := fun y hy => h y (List.mem_cons_of_mem _ hy)
    simp [List.takeWhile_cons, hx, ih hxs]

theorem dropWhile_append_of_all {p : Char → Bool} {l₁ : List Char}
    (l₂ : List Char) (h : ∀ x ∈ l₁, p x = true) :
    (l₁ ++ l₂).dropWhile p = l₂.dropWhile p := by
  induction l₁ with
  | nil => simp
  | cons x xs ih =>
    have hx := h x (List.mem_cons_self x xs)
    have hxs : ∀ y ∈ xs, p y = true := fun y hy => h y (List.mem_cons_of_mem _ hy)
    simp [List.dropWhile_cons, hx, ih hxs]

theorem isPrefixOf_append_self (l r : List Char) : l.isPrefixOf (l ++ r) = true := by
  induction l with
  | nil => simp [List.isPrefixOf]
  | cons x xs ih => simp [List.isPrefixOf, ih]

/-! ## Helper lemmas: URL roundtrip -/

theorem splitHost_take {host path : List Char} (hh : '/' ∉ host)
    (hp : path = [] ∨ path.head? = some '/') :
    (host ++ path).takeWhile (fun c => c != '/') = host
    ∧ (host ++ path).dropWhile (fun c => c != '/') = path := by
  have hall : ∀ x ∈ host, (x != '/') = true := by
    intro x hx
    have : ¬ x = '/' := by rintro rfl; exact hh hx
    simpa using this
  constructor
  · rw [takeWhile_append_of_all _ hall]
    rcases hp with hp | hp
    · simp [hp]
    · rcases path with _ | ⟨c, cs⟩
      · simp
      · have hc : c = '/' := by simpa using hp
        subst hc
        simp [List.takeWhile_cons]
  · rw [dropWhile_append_of_all _ hall]
    rcases hp with hp | hp
    · simp [hp]
    · rcases path with _ | ⟨c, cs⟩
      · simp
      · have hc : c = '/' := by simpa using hp
        subst hc
        simp [List.dropWhile_cons]

theorem parseAbsURL_serializeURL (u : GoURL) (h : wellFormedURLParts u) :
    parseAbsURL (serializeURL u) = some u := by
  obtain ⟨sch, host, path, rq, frag⟩ := u
  obtain ⟨hsch, hhostS, hhostQ, hhostH, hpathShape, hpathQ, hpathH, hqH⟩ := h
  simp only at hsch hhostS hhostQ hhostH hpathShape hpathQ hpathH hqH
  have hschC : ':' ∉ sch := by rcases hsch with h1 | h1 <;> rw [h1] <;> decide
  have hschH : '#' ∉ sch := by rcases hsch with h1 | h1 <;> rw [h1] <;> decide
  have hschQ : '?' ∉ sch := by rcases hsch with h1 | h1 <;> rw [h1] <;> decide
  -- the part of the serialization before the fragment marker
  have hbodyH : '#' ∉ sch ++ (("://".toList : List Char))
      ++ host ++ path ++ (if rq = [] then ([] : List Char) else '?' :: rq) := by
    intro hm
    simp only [List.mem_append] at hm
    rcases hm with ((((h1 | h1) | h1) | h1) | h1)
    · exact hschH h1
    · exact absurd h1 (by decide)
    · exact hhostH h1
    · exact hpathH h1
    · revert h1
      split
      · simp
      · intro h1
        rcases List.mem_cons.mp h1 with h2 | h2
        · exact absurd h2 (by decide)
        · exact hqH h2
  have hhash : splitAtFirst '#' (serializeURL ⟨sch, host, path, rq, frag⟩)
      = (sch ++ (("://".toList : List Char)) ++ host ++ path
          ++ (if rq = [] then ([] : List Char) else '?' :: rq),
         if frag = [] then none else some frag) := by
    by_cases hf : frag = []
    · have hs : serializeURL ⟨sch, host, path, rq, frag⟩
          = sch ++ (("://".toList : List Char)) ++ host ++ path
            ++ (if rq = [] then ([] : List Char) else '?' :: rq) := by
        simp [serializeURL, hf]
      rw [hs, splitAtFirst_not_mem hbodyH, if_pos hf]
    · have hs : serializeURL ⟨sch, host, path, rq, frag⟩
          = (sch ++ (("://".toList : List Char)) ++ host ++ path
              ++ (if rq = [] then ([] : List Char) else '?' :: rq)) ++ '#' :: frag := by
        simp [serializeURL, hf]
      rw [hs, splitAtFirst_append _ hbodyH, if_neg hf]
  have hassoc : sch ++ (("://".toList : List Char)) ++ host ++ path
      ++ (if rq = [] then ([] : List Char) else '?' :: rq)
      = sch ++ ':' :: '/' :: '/'
        :: (host ++ (path ++ (if rq = [] then ([] : List Char) else '?' :: rq))) := by
    simp [List.append_assoc]
  have hscheme := splitSchemeSep_append
    (host ++ (path ++ (if rq = [] then ([] : List Char) else '?' :: rq))) hschC
  have hnmQ : '?' ∉ host ++ path := by
    intro hm
    rcases List.mem_append.mp hm with h1 | h1
    · exact hhostQ h1
    · exact hpathQ h1
  have hquery : splitAtFirst '?'
      (host ++ (path ++ (if rq = [] then ([] : List Char) else '?' :: rq)))
      = (host ++ path, if rq = [] then none else some rq) := by
    by_cases hqe : rq = []
    · subst hqe
      show splitAtFirst '?' (host ++ (path ++ ([] : List Char))) = (host ++ path, none)
      rw [List.append_nil, splitAtFirst_not_mem hnmQ]
    · have hform : host ++ (path ++ '?' :: rq) = (host ++ path) ++ '?' :: rq := by
        rw [List.append_assoc]
      rw [if_neg hqe, if_neg hqe, hform, splitAtFirst_append _ hnmQ]
  obtain ⟨htake, hdrop⟩ := splitHost_take hhostS hpathShape
  simp only [parseAbsURL, hhash, hassoc, hscheme, hquery, htake, hdrop]
  rcases Decidable.em (frag = []) with hf | hf <;>
    rcases Decidable.em (rq = []) with hqe | hqe <;>
      simp [hf, hqe]

/-! ## Helper lemmas: the ring scan -/

theorem scanFold_eq_scanEntries (s e : Int) :
    ∀ L acc, scanFold s e L acc = scanEntries s e L ++ acc := by
  intro L
  induction L with
  | nil => intro acc; simp [scanFold, scanEntries]
  | cons x rest ih =>
    intro acc
    obtain ⟨line, t⟩ := x
    by_cases h1 : t = 0
    · simp only [scanFold, scanEntries, if_pos h1]
      exact ih acc
    · by_cases h2 : s - 1000000000 < t ∧ t < e
      · have h3 : ¬ t < s - 2000000000 := by omega
        simp only [scanFold, scanEntries, if_neg h1, if_pos h2, if_neg h3]
        rw [ih (line :: acc), List.append_assoc]
        rfl
      · by_cases h3 : t < s - 2000000000
        · simp only [scanFold, scanEntries, if_neg h1, if_neg h2, if_pos h3]
          simp
        · simp only [scanFold, scanEntries, if_neg h1, if_neg h2, if_neg h3]
          exact ih acc

theorem getRequestLogLoop_eq_scanFold (r : ProcessLogRing) (s e : Int) :
    ∀ n, n ≤ r.maxLogLines → ∀ acc,
      getRequestLogLoop r s e n acc
        = scanFold s e ((List.range' (r.maxLogLines - n) n).map (entryAt r)) acc := by
  intro n
  induction n with
  | zero => intro _ acc; simp [getRequestLogLoop, scanFold]
  | succ n ih =>
    intro hn acc
    have hmn : r.maxLogLines - (n + 1) + 1 = r.maxLogLines - n := by omega
    have hle : n ≤ r.maxLogLines := by omega
    rw [List.range'_succ, hmn, List.map_cons]
    by_cases h1 : r.logTimes.getD
        (ringIdx r.logIndex r.maxLogLines (r.maxLogLines - (n + 1))) 0 = 0
    · simp only [getRequestLogLoop, entryAt, scanFold, if_pos h1]
      exact ih hle acc
    · by_cases h2 : s - 1000000000 < r.logTimes.getD
          (ringIdx r.logIndex r.maxLogLines (r.maxLogLines - (n + 1))) 0
        ∧ r.logTimes.getD
            (ringIdx r.logIndex r.maxLogLines (r.maxLogLines - (n + 1))) 0 < e
      · have h3 : ¬ r.logTimes.getD
            (ringIdx r.logIndex r.maxLogLines (r.maxLogLines - (n + 1))) 0
            < s - 2000000000 := by omega
        simp only [getRequestLogLoop, entryAt, scanFold, if_neg h1, if_pos h2,
          if_neg h3]
        exact ih hle _
      · by_cases h3 : r.logTimes.getD
            (ringIdx r.logIndex r.maxLogLines (r.maxLogLines - (n + 1))) 0
            < s - 2000000000
        · simp only [getRequestLogLoop, entryAt, scanFold, if_neg h1, if_neg h2,
            if_pos h3]
        · simp only [getRequestLogLoop, entryAt, scanFold, if_neg h1, if_neg h2,
            if_neg h3]
          exact ih hle _

theorem GetRequestLogLines_eq_scanEntries (r : ProcessLogRing) (s now : Int) :
    GetRequestLogLines r s now
      = scanEntries s (now + 500000000) (scanOrderList r) := by
  unfold GetRequestLogLines scanOrderList
  rw [getRequestLogLoop_eq_scanFold r s (now + 500000000) r.maxLogLines le_rfl []]
  rw [scanFold_eq_scanEntries, List.append_nil, Nat.sub_self, ← List.range_eq_range']

theorem scanEntries_length_le (s e : Int) :
    ∀ L : List (List Char × Int), (scanEntries s e L).length ≤ L.length := by
  intro L
  induction L with
  | nil => simp [scanEntries]
  | cons x rest ih =>
    obtain ⟨line, t⟩ := x
    simp only [scanEntries]
    split_ifs with h1 h2 h3
    · exact le_trans ih (by simp)
    · simp only [List.length_append, List.length_cons, List.length_nil]
      omega
    · simp
    · exact le_trans ih (by simp)

theorem scanEntries_mem (s e : Int) :
    ∀ (L : List (List Char × Int)) (x : List Char),
      x ∈ scanEntries s e L → ∃ t, (x, t) ∈ L := by
  intro L
  induction L with
  | nil => intro x hx; simp [scanEntries] at hx
  | cons p rest ih =>
    intro x hx
    obtain ⟨line, t⟩ := p
    simp only [scanEntries] at hx
    split_ifs at hx with h1 h2 h3
    · obtain ⟨t1, ht1⟩ := ih x hx
      exact ⟨t1, List.mem_cons_of_mem _ ht1⟩
    · rcases List.mem_append.mp hx with hx1 | hx1
      · obtain ⟨t1, ht1⟩ := ih x hx1
        exact ⟨t1, List.mem_cons_of_mem _ ht1⟩
      · have : x = line := by simpa using hx1
        subst this
        exact ⟨t, List.mem_cons_self _ _⟩
    · simp at hx
    · obtain ⟨t1, ht1⟩ := ih x hx
      exact ⟨t1, List.mem_cons_of_mem _ ht1⟩

theorem scanEntries_eq_filter (s e : Int) :
    ∀ L : List (List Char × Int), L.Pairwise scanNewerOlder →
      scanEntries s e L
        = ((L.filter (windowCondB s e)).map Prod.fst).reverse := by
  intro L
  induction L with
  | nil => intro _; simp [scanEntries]
  | cons p rest ih =>
    intro hpw
    obtain ⟨line, t⟩ := p
    rcases List.pairwise_cons.mp hpw with ⟨hall, hrest⟩
    simp only [scanEntries]
    split_ifs with h1 h2 h3
    · have hc : windowCondB s e (line, t) = false := by
        simp [windowCondB, h1]
      rw [List.filter_cons, hc]
      simp only [Bool.false_eq_true, if_false]
      exact ih hrest
    · have hc : windowCondB s e (line, t) = true := by
        simp [windowCondB, h1, h2.1, h2.2]
      rw [List.filter_cons, hc]
      simp only [if_true, List.map_cons, List.reverse_cons]
      rw [ih hrest]
    · have hc : windowCondB s e (line, t) = false := by
        have : ¬ (s - 1000000000 < t ∧ t < e) := h2
        simp [windowCondB, this]
      have hrestnil : rest.filter (windowCondB s e) = [] := by
        rw [List.filter_eq_nil_iff]
        intro b hb
        rcases hall b hb with hb0 | ⟨_, hble⟩
        · simp [windowCondB, hb0]
        · have : ¬ (s - 1000000000 < b.2) := by omega
          simp [windowCondB, this]
      rw [List.filter_cons, hc]
      simp [hrestnil]
    · have hc : windowCondB s e (line, t) = false := by
        have : ¬ (s - 1000000000 < t ∧ t < e) := h2
        simp [windowCondB, this]
      rw [List.filter_cons, hc]
      simp only [Bool.false_eq_true, if_false]
      exact ih hrest

/-! ## Helper lemmas: find? congruence -/

theorem find?_congrP {α : Type} {p q : α → Bool} :
    ∀ l : List α, (∀ a ∈ l, p a = q a) → l.find? p = l.find? q := by
  intro l
  induction l with
  | nil => intro _; rfl
  | cons x xs ih =>
    intro h
    have hx := h x (List.mem_cons_self _ _)
    cases hqx : q x
    · rw [List.find?_cons_of_neg _ (by simp [hx, hqx]),
        List.find?_cons_of_neg _ (by simp [hqx])]
      exact ih (fun a ha => h a (List.mem_cons_of_mem _ ha))
    · rw [List.find?_cons_of_pos _ (by simp [hx, hqx]),
        List.find?_cons_of_pos _ (by simp [hqx])]

/-! ## Helper lemmas: the semaphore system -/

theorem countP_set {q : Nat → Bool} :
    ∀ (l : List Nat) (i a b : Nat), l.get? i = some a →
      (l.set i b).countP q + (if q a then 1 else 0)
        = l.countP q + (if q b then 1 else 0) := by
  intro l
  induction l with
  | nil => intro i a b h; simp at h
  | cons x xs ih =>
    intro i a b h
    cases i with
    | zero =>
      have hax : a = x := by simpa using h.symm
      subst hax
      simp only [List.set, List.countP_cons]
      omega
    | succ j =>
      have hj : xs.get? j = some a := by simpa using h
      simp only [List.set, List.countP_cons]
      have := ih j a b hj
      omega

theorem countP_pos_of_get {q : Nat → Bool} :
    ∀ (l : List Nat) (i a : Nat), l.get? i = some a → q a = true →
      1 ≤ l.countP q := by
  intro l
  induction l with
  | nil => intro i a h; simp at h
  | cons x xs ih =>
    intro i a h hq
    cases i with
    | zero =>
      have hax : a = x := by simpa using h.symm
      subst hax
      rw [List.countP_cons]
      simp [hq]
    | succ j =>
      have hj : xs.get? j = some a := by simpa using h
      rw [List.countP_cons]
      have := ih j a hj hq
      omega

theorem countP_two_of_get_ne {q : Nat → Bool} :
    ∀ (l : List Nat) (i j a b : Nat), i ≠ j →
      l.get? i = some a → l.get? j = some b → q a = true → q b = true →
      2 ≤ l.countP q := by
  intro l
  induction l with
  | nil => intro i j a b _ h; simp at h
  | cons x xs ih =>
    intro i j a b hne hi hj hqa hqb
    cases i with
    | zero =>
      cases j with
      | zero => exact absurd rfl hne
      | succ j1 =>
        have hax : a = x := by simpa using hi.symm
        subst hax
        have hj1 : xs.get? j1 = some b := by simpa using hj
        rw [List.countP_cons, if_pos hqa]
        have := countP_pos_of_get xs j1 b hj1 hqb
        omega
    | succ i1 =>
      cases j with
      | zero =>
        have hbx : b = x := by simpa using hj.symm
        subst hbx
        have hi1 : xs.get? i1 = some a := by simpa using hi
        rw [List.countP_cons, if_pos hqb]
        have := countP_pos_of_get xs i1 a hi1 hqa
        omega
      | succ j1 =>
        have hi1 : xs.get? i1 = some a := by simpa using hi
        have hj1 : xs.get? j1 = some b := by simpa using hj
        have hne1 : i1 ≠ j1 := fun hE => hne (by rw [hE])
        rw [List.countP_cons]
        have := ih i1 j1 a b hne1 hi1 hj1 hqa hqb
        omega

theorem semInvariant {n : Nat} {s : SemState} (h : SemReachable n s) :
    s.tokens + inBodyCount s = 1 := by
  induction h with
  | refl =>
    have hz : (List.replicate n 0).countP (fun p => p == 1) = 0 := by
      rw [List.countP_eq_zero]
      intro a ha
      have : a = 0 := (List.mem_replicate.mp ha).2
      simp [this]
    simp [semInit, inBodyCount, semInitTokens, hz]
  | @tail b c _ hstep ih =>
    cases hstep with
    | acquire i hpc htok =>
      have hcount := countP_set (q := fun p => p == 1) b.pcs i 0 1 hpc
      rw [if_neg (by simp), if_pos (by simp)] at hcount
      simp only [inBodyCount] at ih ⊢
      show b.tokens - 1 + (b.pcs.set i 1).countP (fun p => p == 1) = 1
      omega
    | release i hpc =>
      have hcount := countP_set (q := fun p => p == 1) b.pcs i 1 2 hpc
      rw [if_pos (by simp), if_neg (by simp)] at hcount
      simp only [inBodyCount] at ih ⊢
      show b.tokens + 1 + (b.pcs.set i 2).countP (fun p => p == 1) = 1
      omega

theorem semMutex {n : Nat} {s : SemState} (h : SemReachable n s) :
    ∀ i j, s.pcs.get? i = some 1 → s.pcs.get? j = some 1 → i = j := by
  intro i j hi hj
  by_contra hne
  have h2 : 2 ≤ inBodyCount s :=
    countP_two_of_get_ne s.pcs i j 1 1 hne hi hj (by simp) (by simp)
  have h1 := semInvariant h
  omega

/-! ## Helper lemmas: substring containment -/

theorem isPrefixOf_mono {sub : List Char} :
    ∀ {l : List Char} (r : List Char), sub.isPrefixOf l = true →
      sub.isPrefixOf (l ++ r) = true := by
  induction sub with
  | nil => intro l r _; simp [List.isPrefixOf]
  | cons x xs ih =>
    intro l r h
    cases l with
    | nil => simp [List.isPrefixOf] at h
    | cons y ys =>
      simp only [List.isPrefixOf, Bool.and_eq_true] at h
      simp only [List.cons_append, List.isPrefixOf, Bool.and_eq_true]
      exact ⟨h.1, ih r h.2⟩

theorem containsSub_append_left {sub : List Char} :
    ∀ {l : List Char} (r : List Char), containsSub sub l = true →
      containsSub sub (l ++ r) = true := by
  intro l
  induction l with
  | nil =>
    intro r h
    have hsub : sub = [] := by
      simpa [containsSub, List.isEmpty_iff] using h
    subst hsub
    cases r with
    | nil => rfl
    | cons y ys => simp [containsSub, List.isPrefixOf]
  | cons x xs ih =>
    intro r h
    simp only [containsSub, Bool.or_eq_true] at h
    simp only [List.cons_append, containsSub, Bool.or_eq_true]
    rcases h with h | h
    · exact Or.inl (isPrefixOf_mono r h)
    · exact Or.inr (ih r h)

theorem containsSub_append_right {sub : List Char} :
    ∀ (l : List Char) {r : List Char}, containsSub sub r = true →
      containsSub sub (l ++ r) = true := by
  intro l
  induction l with
  | nil => intro r h; simpa using h
  | cons x xs ih =>
    intro r h
    simp only [List.cons_append, containsSub, Bool.or_eq_true]
    exact Or.inr (ih h)

theorem startSpaceErrMessage_tail (cmd sub : List Char)
    (h : containsSub sub
      (("]）\n\n示例：启动 Go 项目\n  command: \"go\"\n  args: [\"run\", \".\"]\n\n示例：启动 Python 项目\n  command: \"python\"\n  args: [\"-m\", \"http.server\", \"8080\"]").toList) = true) :
    containsSub sub (startSpaceErrMessage cmd) = true := by
  unfold startSpaceErrMessage
  simp only [List.append_assoc]
  iterate 24 apply containsSub_append_right
  exact h

/-! ## C1: single waiter on the OS wait -/

/-- C1: the OS wait (`Cmd.Wait`) is invoked exactly once per child, in the
exit watcher `monitorProcessExit`; among the four tasks spawned for a
child it is the only one containing the wait; `KillProcess` (under every
combination of its runtime branches) and the homonym cleanup of
`StartProcess` never invoke the OS wait and instead observe the
`waitDone` latch. -/
theorem C1_single_waiter :
    ((startProcessSpawnedTasks.map (fun t => t.count ChildAction.osWait)).sum = 1)
    ∧ monitorProcessExitActions.count ChildAction.osWait = 1
    ∧ (∀ w f p : Bool,
        ChildAction.osWait ∉ killProcessActions w f p
        ∧ ChildAction.awaitWaitDone ∈ killProcessActions w f p)
    ∧ ChildAction.osWait ∉ startProcessHomonymCleanupActions
    ∧ ChildAction.awaitWaitDone ∈ startProcessHomonymCleanupActions := by
  refine ⟨by decide, by decide, ?_, by decide, by decide⟩
  intro w f p
  cases w <;> cases f <;> cases p <;> exact ⟨by decide, by decide⟩

/-! ## C8: kill strategy switches on the runtime OS variable -/

/-- C8: the kill strategy is *not* fixed at build time — evaluating the
embedded kill paths at the same inputs under two values of the runtime
environment variable `OS` yields different external command sequences,
for both the terminate routine and the port reaper. -/
theorem C8_kill_strategy_env_dependent :
    KillProcessCmds ("Windows_NT".toList) 123 false 0 []
      ≠ KillProcessCmds ([] : List Char) 123 false 0 []
    ∧ killProcessByPortCmds ("Windows_NT".toList) [9]
      ≠ killProcessByPortCmds ([] : List Char) [9] := by
  exact ⟨by decide, by decide⟩

/-! ## C9: the window query returns at most the ring capacity -/

/-- C9: for a ring of the source's capacity (1000), the window query
returns at most 1000 lines, and every returned line is one of the ring's
current entries — lines already displaced from the ring are never
returned. -/
theorem C9_ring_capacity_bound (r : ProcessLogRing) (s now : Int)
    (hcap : r.maxLogLines = sourceMaxLogLines) :
    (GetRequestLogLines r s now).length ≤ sourceMaxLogLines
    ∧ ∀ l ∈ GetRequestLogLines r s now, ∃ t, (l, t) ∈ scanOrderList r := by
  constructor
  · have h1 := scanEntries_length_le s (now + 500000000) (scanOrderList r)
    have h2 : (scanOrderList r).length = r.maxLogLines := by
      simp [scanOrderList]
    rw [GetRequestLogLines_eq_scanEntries, ← hcap]
    omega
  · intro l hl
    rw [GetRequestLogLines_eq_scanEntries] at hl
    exact scanEntries_mem _ _ _ l hl

theorem C9_ring_capacity_bound_witness :
    (GetRequestLogLines
      { logLines := List.replicate 1000 ([] : List Char),
        logTimes := (List.replicate 1000 (0 : Int)).set 998 1,
        logIndex := 0, maxLogLines := 1000 } 10000000000 10000000000).length
      ≤ sourceMaxLogLines :=
  (C9_ring_capacity_bound _ 10000000000 10000000000 rfl).1

/-! ## C3: the time window of the log query -/

/-- C3 (counterexample): the claim includes an entry with
`t = t_start − 1 s` exactly (`t_start − 1 s ≤ t`), but the source uses
the strict `logTime.After(startTime.Add(-1s))`.  At `t_start = 10 s`,
`now = 10 s`, a ring holding an initialized entry stamped exactly
`9 s = t_start − 1 s` (which also satisfies `t < now + 500 ms` and is
scanned before the stale-entry cutoff fires) is *not* returned: the
query yields the empty list. -/
theorem C3_window_left_boundary_cex :
    GetRequestLogLines
      { logLines := ((List.replicate 1000 ([] : List Char)).set 0
          ("old".toList)).set 1 ("x".toList),
        logTimes := ((List.replicate 1000 (0 : Int)).set 0 1).set 1 9000000000,
        logIndex := 2, maxLogLines := 1000 } 10000000000 10000000000 = []
    ∧ ((10000000000 : Int) - 1000000000 ≤ 9000000000
        ∧ (9000000000 : Int) < 10000000000 + 500000000
        ∧ (9000000000 : Int) ≠ 0
        ∧ ¬ ((9000000000 : Int) < 10000000000 - 2000000000)) := by
  exact ⟨by decide, by decide⟩

/-- C3 (amended): for every log-window query with start time `t_start`
evaluated at wall clock `now`, under ring invariant L2 (timestamps
non-increasing along the backward scan, never-written slots oldest), a
ring entry with timestamp `t` is included in the result if and only if
it is initialized and `t_start − 1 s < t < now + 500 ms` (the left bound
is strict — `After` — which is the single correction to the claim); the
backward scan stops once an entry with `t < t_start − 2 s` is seen, and
the returned lines are joined in chronological (write) order.  Stated as
an equation: the result is exactly the window-filtered ring content in
write order. -/
theorem C3_window_query (r : ProcessLogRing) (s now : Int)
    (hsorted : (scanOrderList r).Pairwise scanNewerOlder) :
    GetRequestLogLines r s now
      = (((scanOrderList r).filter (windowCondB s (now + 500000000))).map
          Prod.fst).reverse
    ∧ GetRequestLog r s now
      = List.intercalate ("\n".toList)
          ((((scanOrderList r).filter (windowCondB s (now + 500000000))).map
            Prod.fst).reverse) := by
  have h1 := GetRequestLogLines_eq_scanEntries r s now
  have h2 := scanEntries_eq_filter s (now + 500000000) (scanOrderList r) hsorted
  refine ⟨h1.trans h2, ?_⟩
  rw [GetRequestLog, h1, h2]

theorem C3_window_query_witness :
    GetRequestLogLines
      { logLines := ["a".toList, "b".toList, "c".toList],
        logTimes := [1000000000, 2000000000, 3000000000],
        logIndex := 0, maxLogLines := 3 } 2200000000 3000000000
      = ["b".toList, "c".toList] :=
  ((C3_window_query
      { logLines := ["a".toList, "b".toList, "c".toList],
        logTimes := [1000000000, 2000000000, 3000000000],
        logIndex := 0, maxLogLines := 3 } 2200000000 3000000000
      (by decide)).1).trans (by decide)

/-! ## C4: the command-shape rejection -/

/-- C4 (counterexample): the claim covers every command containing
whitespace, but the handler only tests `strings.Contains(command, " ")`
— the single space.  The command `go<TAB>run` contains whitespace, yet
the handler does not reject it: with a spawn that succeeds and a ready
port, the call returns a non-error, reaps the health port, spawns and
registers a child — contradicting the claimed error return, the claimed
absence of a spawn, and the claimed unchanged registry/ports. -/
theorem C4_whitespace_not_rejected_cex :
    specContainsWhitespace ("go\trun".toList) = true
    ∧ startProcessHandler [] ("srv".toList) ("go\trun".toList)
        ("http://localhost:8080/health".toList) 60 (SpawnOutcome.started 7)
        (fun _ => true) none true
      = { registry := [("srv".toList)], isError := false,
          message := startSuccessMessage,
          effects := [StartEffect.portCheckAndReap, StartEffect.spawnAttempt,
            StartEffect.registerChild] } := by
  exact ⟨by decide, by decide⟩

/-- C4 (amended): for every `start_process` call whose command contains a
*space character* (the check the source performs), the handler returns
an `isError = true` result whose message is the remediation text — which
shows the correct shape (`command`, `args`, the `go` / `run` example) —
and performs no side effect: the registry is returned unchanged and the
effect list is empty (no port reap, no spawn). -/
theorem C4_space_reject (registry : List (List Char)) (name command url : List Char)
    (t : Int) (spawn : SpawnOutcome) (portOpen : Nat → Bool) (exitAt : Option Nat)
    (httpReady : Bool) (h : command.contains ' ' = true) :
    startProcessHandler registry name command url t spawn portOpen exitAt httpReady
      = { registry := registry, isError := true,
          message := startSpaceErrMessage command, effects := [] }
    ∧ containsSub ("command".toList) (startSpaceErrMessage command) = true
    ∧ containsSub ("args".toList) (startSpaceErrMessage command) = true
    ∧ containsSub ("go".toList) (startSpaceErrMessage command) = true
    ∧ containsSub ("run".toList) (startSpaceErrMessage command) = true := by
  refine ⟨?_, ?_, ?_, ?_, ?_⟩
  · unfold startProcessHandler
    rw [if_pos h]
  · exact startSpaceErrMessage_tail command _ (by decide)
  · exact startSpaceErrMessage_tail command _ (by decide)
  · exact startSpaceErrMessage_tail command _ (by decide)
  · exact startSpaceErrMessage_tail command _ (by decide)

theorem C4_space_reject_witness :
    (startProcessHandler [] ("x".toList) ("go run".toList) ("u".toList) 60
      SpawnOutcome.otherError (fun _ => false) none false).isError = true := by
  rw [(C4_space_reject [] ("x".toList) ("go run".toList) ("u".toList) 60
    SpawnOutcome.otherError (fun _ => false) none false (by decide)).1]

/-! ## C7: transport failure reporting -/

/-- C7 (counterexample): on a transport failure the tool result is
non-error with `status_code = 0`, but the claim that the `response`
field always holds the error string fails: when the rendered content
exceeds the 4000-byte inline limit and the response log file was
written, the payload carries `response_summary` instead and has *no*
`response` field.  Concretely: error `connection refused` with a 5000
byte log window and a written log file. -/
theorem goLen_replicate (n : Nat) (c : Char) :
    goLen (List.replicate n c) = n * c.utf8Size := by
  induction n with
  | zero => simp [goLen]
  | succ m ih =>
    rw [List.replicate_succ]
    simp only [goLen, List.map_cons, List.sum_cons] at ih ⊢
    rw [ih]
    ring

theorem C7_transport_failure_summary_cex :
    (requestWithLogsBuild (HTTPOutcome.failed ("connection refused".toList)) 42
        (some (List.replicate 5000 'a')) ("L".toList)).1 = false
    ∧ (requestWithLogsBuild (HTTPOutcome.failed ("connection refused".toList)) 42
        (some (List.replicate 5000 'a')) ("L".toList)).2.status_code = 0
    ∧ (requestWithLogsBuild (HTTPOutcome.failed ("connection refused".toList)) 42
        (some (List.replicate 5000 'a')) ("L".toList)).2.response = none
    ∧ (requestWithLogsBuild (HTTPOutcome.failed ("connection refused".toList)) 42
        (some (List.replicate 5000 'a')) ("L".toList)).2.response_summary
      = some (("请求失败: connection refused").toList) := by
  have hbase : ∀ L : List Char, L ≠ [] → goLen L = 5000 →
      (requestWithLogsBuild (HTTPOutcome.failed ("connection refused".toList)) 42
        (some L) ("L".toList)).1 = false
      ∧ (requestWithLogsBuild (HTTPOutcome.failed ("connection refused".toList)) 42
        (some L) ("L".toList)).2.status_code = 0
      ∧ (requestWithLogsBuild (HTTPOutcome.failed ("connection refused".toList)) 42
        (some L) ("L".toList)).2.response = none
      ∧ (requestWithLogsBuild (HTTPOutcome.failed ("connection refused".toList)) 42
        (some L) ("L".toList)).2.response_summary
        = some (("请求失败: connection refused").toList) := by
    intro L hne hlen
    unfold requestWithLogsBuild
    simp only [if_neg hne]
    have hcond : goLen (("请求失败: ".toList) ++ ("connection refused".toList))
        + goLen L > maxInlineLen ∧ ("L".toList) ≠ ([] : List Char) := by
      refine ⟨?_, by decide⟩
      have h1 : goLen (("请求失败: ".toList)
          ++ ("connection refused".toList)) = 32 := by decide
      rw [h1, hlen, maxInlineLen]
      omega
    rw [if_pos hcond]
    have htr : truncateString (("请求失败: ".toList)
        ++ ("connection refused".toList)) 500
        = ("请求失败: connection refused").toList := by decide
    exact ⟨rfl, rfl, rfl, by rw [htr]⟩
  have hne : (List.replicate 5000 'a' : List Char) ≠ [] := by
    intro hE
    have hlen := congrArg List.length hE
    rw [List.length_replicate, List.length_nil] at hlen
    exact absurd hlen (by decide)
  have hlen : goLen (List.replicate 5000 'a') = 5000 := by
    rw [goLen_replicate]
    decide
  exact hbase _ hne hlen

/-- C7 (amended): for every `request_with_logs` call whose HTTP request
fails at the transport level, the tool returns a non-error result
(`IsError` unset) whose structured payload has `status_code = 0`, and
the error string (prefixed by the source's failure marker) is carried in
the `response` field — or, when the rendered content exceeds the
4000-byte inline limit and the response log file was written, in
`response_summary` (truncated to 500 bytes) with `response` absent. -/
theorem C7_transport_failure (err : List Char) (durationMs : Int)
    (proc : Option (List Char)) (logFilePath : List Char) :
    (requestWithLogsBuild (HTTPOutcome.failed err) durationMs proc logFilePath).1
      = false
    ∧ (requestWithLogsBuild (HTTPOutcome.failed err) durationMs
        proc logFilePath).2.status_code = 0
    ∧ ((requestWithLogsBuild (HTTPOutcome.failed err) durationMs
          proc logFilePath).2.response = some (("请求失败: ".toList) ++ err)
        ∨ ((requestWithLogsBuild (HTTPOutcome.failed err) durationMs
              proc logFilePath).2.response = none
            ∧ (requestWithLogsBuild (HTTPOutcome.failed err) durationMs
                proc logFilePath).2.response_summary
              = some (truncateString (("请求失败: ".toList) ++ err) 500))) := by
  simp only [requestWithLogsBuild]
  split
  · exact ⟨rfl, rfl, Or.inr ⟨rfl, rfl⟩⟩
  · exact ⟨rfl, rfl, Or.inl rfl⟩

/-! ## C2: serialized tool handlers -/

/-- C2: in the semaphore system modelling `toolSemaphore` (capacity one,
one token posted by `init`), every reachable interleaving of any number
of concurrent tool calls has at most one call inside a handler body; and
every tool registered in `RegisterTools` — the three process tools and
the memory/knowledge tools — acquires the semaphore as its first action
and releases it (deferred) as its last. -/
theorem C2_serialized_tools :
    (∀ (n : Nat) (s : SemState), SemReachable n s →
      ∀ i j, s.pcs.get? i = some 1 → s.pcs.get? j = some 1 → i = j)
    ∧ ∀ h ∈ registeredToolHandlers,
        h.2.head? = some ToolAction.acquireSem
        ∧ h.2.getLast? = some ToolAction.releaseSem := by
  constructor
  · intro n s hreach i j hi hj
    exact semMutex hreach i j hi hj
  · decide

theorem C2_serialized_tools_witness :
    (0 : Nat) = 0
    ∧ ([ToolAction.acquireSem, ToolAction.handlerBody,
        ToolAction.releaseSem].head? = some ToolAction.acquireSem) := by
  constructor
  · exact C2_serialized_tools.1 2 { pcs := [1, 0], tokens := 0 }
      (Relation.ReflTransGen.single
        (SemStep.acquire (semInit 2) 0 rfl (by decide)))
      0 0 rfl rfl
  · exact (C2_serialized_tools.2 (("start_process".toList),
      [ToolAction.acquireSem, ToolAction.handlerBody, ToolAction.releaseSem])
      (by decide)).1

/-! ## C5: the request URL rewrite -/

/-- C5: when a child is associated, the outbound URL is the caller's URL
with scheme and host:port replaced by the health endpoint's and path,
query and fragment preserved; a caller URL without the http(s) prefix is
treated as a path and appended to the health scheme://host with a
leading slash added when missing. -/
theorem C5_request_url_rewrite (hs : List Char) (h c : GoURL)
    (hh : parseAbsURL hs = some h) (hwf : wellFormedURLParts c) :
    buildRequestURL hs (serializeURL c)
      = some (serializeURL ⟨h.scheme, h.host, c.path, c.rawQuery, c.fragment⟩)
    ∧ ∀ pathOnly : List Char, hasHTTPPrefix pathOnly = false →
        buildRequestURL hs pathOnly
          = some (h.scheme ++ ("://".toList) ++ h.host
              ++ (if pathOnly.head? = some '/' then pathOnly else '/' :: pathOnly)) := by
  have hpre : hasHTTPPrefix (serializeURL c) = true := by
    unfold hasHTTPPrefix
    rcases hwf.1 with h1 | h1
    · have hp : ("http://".toList).isPrefixOf (serializeURL c) = true := by
        unfold serializeURL
        rw [h1]
        simp only [List.append_assoc]
        exact isPrefixOf_append_self ("http://".toList) _
      rw [hp, Bool.true_or]
    · have hp : ("https://".toList).isPrefixOf (serializeURL c) = true := by
        unfold serializeURL
        rw [h1]
        simp only [List.append_assoc]
        exact isPrefixOf_append_self ("https://".toList) _
      rw [hp, Bool.or_true]
  constructor
  · unfold buildRequestURL
    rw [hh, hpre]
    simp only [if_true]
    rw [parseAbsURL_serializeURL c hwf]
  · intro pathOnly hnp
    unfold buildRequestURL
    rw [hh, hnp]
    simp only [Bool.false_eq_true, if_false]

theorem C5_request_url_rewrite_witness :
    buildRequestURL ("http://localhost:8081/health".toList)
      ("http://example.com/api/x?a=1#frag".toList)
      = some ("http://localhost:8081/api/x?a=1#frag".toList) := by
  have hmain := (C5_request_url_rewrite ("http://localhost:8081/health".toList)
    ⟨"http".toList, "localhost:8081".toList, "/health".toList, [], []⟩
    ⟨"http".toList, "example.com".toList, "/api/x".toList, "a=1".toList,
      "frag".toList⟩
    (by decide) (by decide)).1
  have hargs : serializeURL
      ⟨"http".toList, "example.com".toList, "/api/x".toList, "a=1".toList,
        "frag".toList⟩
      = ("http://example.com/api/x?a=1#frag".toList) := by decide
  rw [hargs] at hmain
  exact hmain.trans (by decide)

/-! ## C6: auto-association of a child by URL -/

/-- C6: auto-association parses the request URL, normalizes its host
(lower-cased, with `localhost`, `127.0.0.1`, `::1` and `0.0.0.0`
collapsing to `localhost`), resolves the effective port (explicit, else
80 for http and 443 for https, else no association), and returns the
first registered child matching the spec's predicate — health-pair
equality or request port equal to `health_port` — as a `find?` over the
registry; no match yields no association.  The normalization collapses
are stated explicitly. -/
theorem C6_auto_association (procs : List ProcEntry) (s : List Char) (u : GoURL)
    (hu : parseAbsURL s = some u) :
    (FindProcessByURL procs s =
      match (if uPort u.host = [] then
               (if u.scheme = ("http".toList) then some ("80".toList)
                else if u.scheme = ("https".toList) then some ("443".toList)
                else none)
             else some (uPort u.host)) with
       | none => none
       | some rp =>
         procs.find? (specMatchesChild (normalizeHost (uHostname u.host)) rp))
    ∧ normalizeHost ("LOCALHOST".toList) = ("localhost".toList)
    ∧ normalizeHost ("127.0.0.1".toList) = ("localhost".toList)
    ∧ normalizeHost ("::1".toList) = ("localhost".toList)
    ∧ normalizeHost ("0.0.0.0".toList) = ("localhost".toList)
    ∧ normalizeHost ("Example.COM".toList) = ("example.com".toList) := by
  refine ⟨?_, by decide, by decide, by decide, by decide, by decide⟩
  unfold FindProcessByURL
  rw [hu]
  dsimp only
  cases hval : (if uPort u.host = [] then
      (if u.scheme = ("http".toList) then some ("80".toList)
       else if u.scheme = ("https".toList) then some ("443".toList)
       else none)
    else some (uPort u.host)) with
  | none => rfl
  | some rp =>
    refine find?_congrP procs ?_
    intro e _
    by_cases hE : e.HealthCheckURL = []
    · have h1 : (if e.HealthCheckURL ≠ [] then parseAbsURL e.HealthCheckURL
          else none) = none := by
        simp [hE]
      rw [h1]
      unfold specMatchesChild
      rw [hE]
      rfl
    · have h1 : (if e.HealthCheckURL ≠ [] then parseAbsURL e.HealthCheckURL
          else none) = parseAbsURL e.HealthCheckURL := by
        simp [hE]
      rw [h1]
      rfl

theorem C6_auto_association_witness :
    FindProcessByURL
      [⟨"phgo".toList, "http://localhost:8081/health".toList, 8081⟩]
      ("http://127.0.0.1:8081/ping".toList)
      = some ⟨"phgo".toList, "http://localhost:8081/health".toList, 8081⟩ := by
  have hmain := (C6_auto_association
    [⟨"phgo".toList, "http://localhost:8081/health".toList, 8081⟩]
    ("http://127.0.0.1:8081/ping".toList)
    ⟨"http".toList, "127.0.0.1:8081".toList, "/ping".toList, [], []⟩
    (by decide)).1
  exact hmain.trans (by decide)

/-! ## C10: negative timeout_seconds and the 60 s default -/

theorem wrapInt64_eq_self {x : Int}
    (h1 : -9223372036854775808 ≤ x) (h2 : x < 9223372036854775808) :
    wrapInt64 x = x := by
  unfold wrapInt64
  have h3 : (x + 9223372036854775808) % 18446744073709551616
      = x + 9223372036854775808 :=
    Int.emod_eq_of_lt (by omega) (by omega)
  omega

/-- C10 (counterexample): the source computes
`time.Duration(timeout_seconds) * time.Second` in wrapping int64
arithmetic, so the claim's universal statement over all strictly
negative `timeout_seconds` is false: at `timeout_seconds = -2^55`
(JSON-representable) the product `-2^55 * 10^9 = -2^64 * 5^9` wraps to
`0`, the `timeout == 0` test fires and the 60 s default *is*
substituted — with an open port the handler then returns success
instead of immediately reporting a readiness timeout and killing the
child; and at `timeout_seconds = -10^10` the product wraps to a large
*positive* duration, so the deadline is not already expired either. -/
theorem C10_wrap_cex :
    ((-36028797018963968 : Int) < 0)
    ∧ goDurationSeconds (-36028797018963968) = 0
    ∧ ((if goDurationSeconds (-36028797018963968) = 0 then (60000000000 : Int)
        else goDurationSeconds (-36028797018963968)) = 60000000000)
    ∧ (startProcessHandler [] ("srv".toList) ("go".toList)
        ("http://localhost:8080/health".toList) (-36028797018963968)
        (SpawnOutcome.started 7) (fun _ => true) none true).isError = false
    ∧ ((-10000000000 : Int) < 0)
    ∧ goDurationSeconds (-10000000000) = 8446744073709551616 := by
  refine ⟨by decide, by decide, by decide, by decide, by decide, by decide⟩

/-- C10 (amended): the 60 s default applies exactly when the wrapped
int64 duration `timeout_seconds * 10^9` equals `0` — for
`timeout_seconds = 0` and also for any multiple of `2^55`, where the
product overflows to zero; for every strictly negative
`timeout_seconds` in the non-overflowing range
`-9223372036 ≤ timeout_seconds < 0` no default is substituted: the
duration is negative, the context deadline is already expired, the
readiness wait returns the timeout error before the first 500 ms tick
(elapsed 0), and the handler — having spawned and registered the child
— kills it and reports an error instead of waiting 60 seconds. -/
theorem C10_negative_timeout (registry : List (List Char))
    (name command url : List Char) (t pid p : Int) (portOpen : Nat → Bool)
    (exitAt : Option Nat) (httpReady : Bool)
    (hcmd : command.contains ' ' = false) (hreg : name ∉ registry)
    (hport : extractPortFromURL url = some p) (hp : 0 < p)
    (hlo : -9223372036 ≤ t) (ht : t < 0) :
    goDurationSeconds t = t * 1000000000
    ∧ ((if goDurationSeconds t = 0 then (60000000000 : Int)
        else goDurationSeconds t) = goDurationSeconds t)
    ∧ waitForPortReadyWithExitCheckModel (goDurationSeconds t) portOpen exitAt
        = (Except.error ("等待端口就绪超时".toList), 0)
    ∧ startProcessHandler registry name command url t (SpawnOutcome.started pid)
        portOpen exitAt httpReady
      = { registry := registry, isError := true,
          message := startHealthFailMessage,
          effects := [StartEffect.portCheckAndReap, StartEffect.spawnAttempt,
            StartEffect.registerChild, StartEffect.killAfterFailedHealth] } := by
  have hwrap : goDurationSeconds t = t * 1000000000 := by
    unfold goDurationSeconds
    exact wrapInt64_eq_self (by omega) (by omega)
  have htm : ¬ (goDurationSeconds t = 0) := by
    rw [hwrap]
    omega
  have hwait : waitForPortReadyWithExitCheckModel (goDurationSeconds t)
      portOpen exitAt
      = (Except.error ("等待端口就绪超时".toList), 0) := by
    have hfuel : (goDurationSeconds t).toNat = 0 :=
      Int.toNat_of_nonpos (by rw [hwrap]; omega)
    rw [waitForPortReadyWithExitCheckModel, hfuel]
    show waitForPortReadyGo (goDurationSeconds t) portOpen exitAt
      (0 / 500000000 + 1) 0 = _
    rw [show (0 / 500000000 + 1 : Nat) = 1 from rfl]
    unfold waitForPortReadyGo
    have hc : goDurationSeconds t ≤ 500000000 * ((0 : Nat) : Int) := by
      simp only [Nat.cast_zero, mul_zero]
      rw [hwrap]
      omega
    rw [if_pos hc]
    simp
  refine ⟨hwrap, if_neg htm, hwait, ?_⟩
  have hcontains : registry.contains name = false := by
    simpa using hreg
  have herase : registry.erase name = registry := List.erase_of_not_mem hreg
  unfold startProcessHandler
  rw [if_neg (by rw [hcmd]; exact Bool.false_ne_true)]
  rw [hcontains, hport, herase]
  simp only [Option.getD_some]
  rw [if_pos hp, if_neg htm, hwait]
  dsimp only
  rw [List.erase_append_right _ hreg, List.erase_cons_head, List.append_nil]
  rfl

theorem C10_negative_timeout_witness :
    startProcessHandler [] ("srv".toList) ("go".toList)
      ("http://localhost:8080/health".toList) (-1) (SpawnOutcome.started 7)
      (fun _ => true) none true
    = { registry := [], isError := true, message := startHealthFailMessage,
        effects := [StartEffect.portCheckAndReap, StartEffect.spawnAttempt,
          StartEffect.registerChild, StartEffect.killAfterFailedHealth] } :=
  (C10_negative_timeout [] ("srv".toList) ("go".toList)
    ("http://localhost:8080/health".toList) (-1) 7 8080 (fun _ => true) none true
    (by decide) (by decide) (by decide) (by decide) (by decide)
    (by decide)).2.2.2
